import Mathlib

set_option maxRecDepth 16000
set_option maxHeartbeats 2000000

/-!
# Verification of the `openpgp-asciiarmor` decoder sources

A shallow embedding, in Lean 4, of the Rust sources of the
`openpgp-asciiarmor` repository (RFC 4880 §6 ASCII-Armor codec):

* `src/crc24.rs`   — the CRC-24 integrity check (`crc_octets`);
* `src/base64.rs`  — the sextet container (`Base64`, `from_octet`, `to_octet`);
* `src/lexer.rs`   — the tokenizer (`TokenType`, `Location`, `Token`,
  `Lexer::next_token` and its `scan_*` helpers);
* `src/parser.rs`  — the grammar-directed parser (`Parser` with its
  lookahead buffer, markers and offset, and the `parse_*` productions).

Machine integers are modelled as `Nat` with explicit reduction modulo
`2 ^ 64` (Rust `usize`) or `2 ^ 32` (Rust `u32`) at the operations where
overflow can occur; `isize` locations are modelled as `Int`.  A Rust panic
(`unwrap` of `None`, `unreachable!`, index out of bounds) is modelled by
returning `none` from an `Option`-valued function.  Loops whose descent is
not structural are given an explicit fuel which provably dominates their
iteration count, so they compute exactly what the source loops compute.
-/

namespace Armor

/-! ## `src/crc24.rs`

```rust
const CRC24_INIT: usize = 0xB704CE;
const CRC24_POLY: usize = 0x1864CFB;
pub type Crc24 = usize;
pub fn crc_octets(octets: &[u8]) -> Crc24 {
    let mut crc: Crc24 = CRC24_INIT;
    for octet in octets {
        crc ^= (*octet as usize) << 16;
        for i in 0..8 {
            crc <<= 1;
            if crc & 0x1000000 != 0 {
                crc ^= CRC24_POLY;
            }
        }
    }
    crc & 0xFFFFFF
}
```
-/

def CRC24_INIT : Nat := 0xB704CE

def CRC24_POLY : Nat := 0x1864CFB

/-- One iteration of the inner `for i in 0..8` loop of `crc_octets`:
`crc <<= 1; if crc & 0x1000000 != 0 { crc ^= CRC24_POLY }`, on a `usize`
accumulator (arithmetic modulo `2 ^ 64`). -/
def crcRound (crc : Nat) : Nat :=
  if ((crc <<< 1) % 2 ^ 64) &&& 0x1000000 ≠ 0 then ((crc <<< 1) % 2 ^ 64) ^^^ CRC24_POLY
  else (crc <<< 1) % 2 ^ 64

/-- The body of the outer `for octet in octets` loop of `crc_octets`:
XOR `octet << 16` into the accumulator, then run the inner loop eight
times. -/
def crcOctetStep (crc octet : Nat) : Nat :=
  crcRound^[8] (crc ^^^ ((octet <<< 16) % 2 ^ 64))

/-- Rust `crc_octets` from `src/crc24.rs`: fold the per-octet step over the
input starting from `CRC24_INIT`, then mask the result to 24 bits. -/
def crc_octets (octets : List Nat) : Nat :=
  (octets.foldl crcOctetStep CRC24_INIT) &&& 0xFFFFFF

/-- Modelled from the spec: one round of the RFC 4880 §6.1 reference
computation on a 32-bit accumulator — "shift left by one; if bit 24 is
set, XOR the polynomial". -/
def crcRefRound (crc : Nat) : Nat :=
  if ((crc <<< 1) % 2 ^ 32) &&& 0x1000000 ≠ 0 then ((crc <<< 1) % 2 ^ 32) ^^^ CRC24_POLY
  else (crc <<< 1) % 2 ^ 32

/-- Modelled from the spec: the per-octet step of the reference
computation — "XOR `b << 16` into a 32-bit accumulator", then eight
reference rounds. -/
def crcRefOctetStep (crc octet : Nat) : Nat :=
  crcRefRound^[8] ((crc ^^^ ((octet <<< 16) % 2 ^ 32)) % 2 ^ 32)

/-- Modelled from the spec: the full RFC 4880 §6.1 reference CRC-24 over a
32-bit accumulator initialised to `CRC24_INIT`, masked to 24 bits at the
end. -/
def crc24Ref (octets : List Nat) : Nat :=
  (octets.foldl crcRefOctetStep CRC24_INIT) &&& 0xFFFFFF

/-! ## `src/base64.rs`

```rust
pub type Octet = u32;
const OCTET_MASK: u32 = 0x00FF_FFFF;
pub type Sextet = u32;
const SEXTET_MASK: u32 = 0x3F;
pub struct Base64 { data: Vec<Sextet> }
```
-/

def SEXTET_MASK : Nat := 0x3F

structure Base64 where
  data : List Nat
deriving DecidableEq

/-- Rust `Base64::from_octet`: push, for `i in 0..4`, the sextet
`(octet & (SEXTET_MASK << (6*(3-i)))) >> (6*(3-i))`. -/
def Base64.from_octet (octet : Nat) : Base64 :=
  ⟨(List.range 4).map (fun i => (octet &&& (SEXTET_MASK <<< (6 * (3 - i)))) >>> (6 * (3 - i)))⟩

/-- Rust `Base64::to_octet`: if at most 4 sextets are held, fold them into one
`u32` value with `octet <<= 6; octet |= sextet & SEXTET_MASK`, else return
`None`.  The `u32` shift is modelled modulo `2 ^ 32`. -/
def Base64.to_octet (b : Base64) : Option Nat :=
  if b.data.length ≤ 4 then
    some (b.data.foldl (fun octet sextet => ((octet <<< 6) % 2 ^ 32) ||| (sextet &&& SEXTET_MASK)) 0)
  else
    none

/-! ## `src/lexer.rs` — the tokenizer

`Lexer<S>` holds a peekable character stream and a `Location` with an
`isize` byte offset.  `next_token` dispatches on the peeked character;
the `scan_*` helpers call `match_terminal_symbol`, which consumes matching
characters one by one, rewinds only the *location counter* on a mismatch
(consumed characters are gone from the stream), and does not rewind it at
end of input.  The state is `⟨input, location⟩`; a panic (`unwrap` of
`None`, `unreachable!`) is modelled by `none` / `ScanOutcome.fatal`. -/

inductive TokenType where
  | Pad | ForwardSlash | Colon | Comma | Digit | Letter | PlusSign | WhiteSpace
  | OtherUTF8 | ColonSpace | NewLine | FiveDashes | Begin | End
  | Version | Comment | MessageID | Hash | Charset | BlankLine
  | PGPMessage | PGPPublicKeyBlock | PGPPrivateKeyBlock | PGPMessagePart | PGPSignature
  | Eof
deriving DecidableEq

/-- Rust `TokenType::armor_string` (the copy local to `src/lexer.rs`):
`OtherUTF8`, `Digit`, `Letter` and `BlankLine` fall into the `_ => None`
arm. -/
def armor_string : TokenType → Option String
  | .Pad => some "="
  | .ForwardSlash => some "/"
  | .Colon => some ":"
  | .Comma => some ","
  | .PlusSign => some "+"
  | .WhiteSpace => some " "
  | .ColonSpace => some ": "
  | .NewLine => some "\n"
  | .FiveDashes => some "-----"
  | .Begin => some "BEGIN "
  | .End => some "END "
  | .Version => some "Version"
  | .Comment => some "Comment"
  | .MessageID => some "MessageID"
  | .Hash => some "Hash"
  | .Charset => some "Charset"
  | .Eof => some "EOF"
  | .PGPMessage => some "PGP MESSAGE"
  | .PGPPublicKeyBlock => some "PGP PUBLIC KEY BLOCK"
  | .PGPPrivateKeyBlock => some "PGP PRIVATE KEY BLOCK"
  | .PGPMessagePart => some "PGP MESSAGE, PART "
  | .PGPSignature => some "PGP SIGNATURE"
  | _ => none

/-- Rust `string_to_token_type` (the copy local to `src/lexer.rs`; unlike the
copy in `src/token.rs` it has no `"\r"` entry). -/
def string_to_token_type (token_string : String) : Option TokenType :=
  if token_string = "=" then some .Pad
  else if token_string = "/" then some .ForwardSlash
  else if token_string = ":" then some .Colon
  else if token_string = "," then some .Comma
  else if token_string = "+" then some .PlusSign
  else if token_string = " " then some .WhiteSpace
  else if token_string = ": " then some .ColonSpace
  else if token_string = "\n" then some .NewLine
  else if token_string = "-----" then some .FiveDashes
  else if token_string = "BEGIN " then some .Begin
  else if token_string = "END " then some .End
  else if token_string = "Version" then some .Version
  else if token_string = "Comment" then some .Comment
  else if token_string = "MessageID" then some .MessageID
  else if token_string = "Hash" then some .Hash
  else if token_string = "Charset" then some .Charset
  else if token_string = "EOF" then some .Eof
  else if token_string = "PGP MESSAGE" then some .PGPMessage
  else if token_string = "PGP PUBLIC KEY BLOCK" then some .PGPPublicKeyBlock
  else if token_string = "PGP PRIVATE KEY BLOCK" then some .PGPPrivateKeyBlock
  else if token_string = "PGP MESSAGE, PART " then some .PGPMessagePart
  else if token_string = "PGP SIGNATURE" then some .PGPSignature
  else none

/-- Rust `Location { absolute: isize }`. -/
structure Location where
  absolute : Int
deriving DecidableEq

/-- Rust `Location::eof()` returns `Location { absolute: -1 }`. -/
def Location.eof : Location := ⟨-1⟩

/-- Rust `Token { token_type, text, location }`. -/
structure Token where
  token_type : TokenType
  text : String
  location : Location
deriving DecidableEq

/-- The mutable state of `Lexer<S>`: the not-yet-consumed character stream
and the location counter. -/
structure LexState where
  input : List Char
  location : Int
deriving DecidableEq

/-- Outcome of one `scan_*` call: a token, a `None` (with the possibly
mutated lexer state), or a panic. -/
inductive ScanOutcome where
  | found (t : Token) (st : LexState)
  | noMatch (st : LexState)
  | fatal
deriving DecidableEq

/-- The character loop inside `Lexer::match_terminal_symbol`, keeping the
entry location `e`: each matching character is read (consumed, location
incremented); on a mismatch the location is rewound to `e`
(`backtrack_ntimes(result.len())`) but the consumed characters stay
consumed; at end of input it returns `None` without rewinding. -/
def matchChars (e : Int) : List Char → List Char → Int → Bool × List Char × Int
  | [], input, loc => (true, input, loc)
  | _ :: _, [], loc => (false, [], loc)
  | c :: cs, x :: xs, loc =>
    if x = c then matchChars e cs xs (loc + 1) else (false, x :: xs, e)

/-- Rust `Lexer::match_terminal_symbol`: on a full match, build the token from
`string_to_token_type(token_string).unwrap()` (a panic if the lookup
fails) with the lexeme `token_string` at the entry location. -/
def match_terminal_symbol (token_string : String) (st : LexState) : ScanOutcome :=
  match matchChars st.location token_string.data st.input st.location with
  | (true, input', loc') =>
    match string_to_token_type token_string with
    | some tt => .found ⟨tt, token_string, ⟨st.location⟩⟩ ⟨input', loc'⟩
    | none => .fatal
  | (false, input', loc') => .noMatch ⟨input', loc'⟩

/-- Rust `Lexer::scan_symbol`: `match_terminal_symbol(token_type.armor_string().unwrap())`;
the `unwrap` panics when `armor_string` is `None` (e.g. for `OtherUTF8`). -/
def scan_symbol (token_type : TokenType) (st : LexState) : ScanOutcome :=
  match armor_string token_type with
  | some s => match_terminal_symbol s st
  | none => .fatal

def scan_five_dashes (st : LexState) : ScanOutcome := scan_symbol .FiveDashes st

def scan_colon_space (st : LexState) : ScanOutcome := scan_symbol .ColonSpace st

def scan_forwardslash (st : LexState) : ScanOutcome := scan_symbol .ForwardSlash st

def scan_colon (st : LexState) : ScanOutcome := scan_symbol .Colon st

def scan_plus_sign (st : LexState) : ScanOutcome := scan_symbol .PlusSign st

def scan_pad_symbol (st : LexState) : ScanOutcome := scan_symbol .Pad st

def scan_whitespace_symbol (st : LexState) : ScanOutcome := scan_symbol .WhiteSpace st

def scan_comma (st : LexState) : ScanOutcome := scan_symbol .Comma st

def scan_newline (st : LexState) : ScanOutcome := scan_symbol .NewLine st

def scan_begin (st : LexState) : ScanOutcome := scan_symbol .Begin st

def scan_end (st : LexState) : ScanOutcome := scan_symbol .End st

def scan_version (st : LexState) : ScanOutcome := scan_symbol .Version st

def scan_comment (st : LexState) : ScanOutcome := scan_symbol .Comment st

def scan_messageid (st : LexState) : ScanOutcome := scan_symbol .MessageID st

def scan_hash (st : LexState) : ScanOutcome := scan_symbol .Hash st

def scan_charset (st : LexState) : ScanOutcome := scan_symbol .Charset st

def scan_pgp_message (st : LexState) : ScanOutcome := scan_symbol .PGPMessage st

def scan_pgp_public_key_block (st : LexState) : ScanOutcome :=
  scan_symbol .PGPPublicKeyBlock st

def scan_pgp_private_key_block (st : LexState) : ScanOutcome :=
  scan_symbol .PGPPrivateKeyBlock st

def scan_pgp_message_part (st : LexState) : ScanOutcome := scan_symbol .PGPMessagePart st

def scan_pgp_signature (st : LexState) : ScanOutcome := scan_symbol .PGPSignature st

def scan_other_utf8 (st : LexState) : ScanOutcome := scan_symbol .OtherUTF8 st

/-- Rust `Lexer::scan_letter`: the source enumerates the 52 characters
`'a'..'z'` and `'A'..'Z'` individually, each arm calling
`process_char(ch, TokenType::Letter)`, which builds the token at the
current location and then consumes one character; collapsed here to the
equivalent range test. -/
def scan_letter (st : LexState) : Option Token × LexState :=
  match st.input with
  | c :: rest =>
    if ('a' ≤ c ∧ c ≤ 'z') ∨ ('A' ≤ c ∧ c ≤ 'Z') then
      (some ⟨.Letter, String.mk [c], ⟨st.location⟩⟩, ⟨rest, st.location + 1⟩)
    else (none, st)
  | [] => (none, st)

/-- Rust `Lexer::scan_digit`: the ten arms `'0'..'9'`, each calling
`process_char(ch, TokenType::Digit)`; collapsed to the range test. -/
def scan_digit (st : LexState) : Option Token × LexState :=
  match st.input with
  | c :: rest =>
    if '0' ≤ c ∧ c ≤ '9' then
      (some ⟨.Digit, String.mk [c], ⟨st.location⟩⟩, ⟨rest, st.location + 1⟩)
    else (none, st)
  | [] => (none, st)

/-- The loop of `Lexer::scan_blankline` after the leading `'\n'`: spaces
are accumulated, a second `'\n'` ends the token, anything else (or end of
input) rewinds the location to the entry location `e` and fails. -/
def blanklineLoop (e : Int) : List Char → List Char → Int → Option (List Char) × List Char × Int
  | _, [], _ => (none, [], e)
  | acc, c :: xs, loc =>
    if c = ' ' then blanklineLoop e (acc ++ [c]) xs (loc + 1)
    else if c = '\n' then (some (acc ++ [c]), xs, loc + 1)
    else (none, c :: xs, e)

/-- Rust `Lexer::scan_blankline`: requires a leading `'\n'`, then runs the
loop; the final `is_empty` check of the source can never fire since the
accumulated text always starts with `'\n'`. -/
def scan_blankline (st : LexState) : Option Token × LexState :=
  match st.input with
  | [] => (none, st)
  | c :: xs =>
    if c = '\n' then
      match blanklineLoop st.location ['\n'] xs (st.location + 1) with
      | (some acc, input', loc') =>
        (some ⟨.BlankLine, String.mk acc, ⟨st.location⟩⟩, ⟨input', loc'⟩)
      | (none, input', loc') => (none, ⟨input', loc'⟩)
    else (none, st)

/-- Rust `Lexer::scan_eof`: a token `EOF` at `Location::eof()` (absolute `-1`)
when the stream is exhausted, `None` otherwise; the state is untouched. -/
def scan_eof (st : LexState) : Option Token :=
  match st.input with
  | [] => some ⟨.Eof, "EOF", Location.eof⟩
  | _ :: _ => none

/-- The `result.unwrap()` pattern of `next_token`: a `None` scan outcome
panics. -/
def unwrapScan : ScanOutcome → Option (Token × LexState)
  | .found t st => some (t, st)
  | .noMatch _ => none
  | .fatal => none

/-- The `if result.is_some() { result.unwrap() } else { fallback }`
pattern of `next_token`: the fallback runs on the state left behind by the
failed scan. -/
def scanOrElse (r : ScanOutcome) (fb : LexState → Option (Token × LexState)) :
    Option (Token × LexState) :=
  match r with
  | .found t st => some (t, st)
  | .noMatch st => fb st
  | .fatal => none

/-- The `self.scan_letter().unwrap()` (or `unreachable!()`) tail used by
several branches of `next_token`. -/
def letterUnwrap (st : LexState) : Option (Token × LexState) :=
  match scan_letter st with
  | (some t, st') => some (t, st')
  | (none, _) => none

/-- Rust `Lexer::next_token`: dispatch on the peeked character, in the arm
order of the source `match` (specific characters, then `'\n'`, then the
digit and letter ranges, then the `OtherUTF8` fallback, then `Eof`). -/
def next_token (st : LexState) : Option (Token × LexState) :=
  match st.input.head? with
  | none => (scan_eof st).map (fun t => (t, st))
  | some c =>
    if c = '-' then scanOrElse (scan_five_dashes st) (fun s => unwrapScan (scan_other_utf8 s))
    else if c = '=' then unwrapScan (scan_pad_symbol st)
    else if c = '/' then unwrapScan (scan_forwardslash st)
    else if c = ':' then scanOrElse (scan_colon_space st) (fun s => unwrapScan (scan_colon s))
    else if c = '+' then unwrapScan (scan_plus_sign st)
    else if c = ',' then unwrapScan (scan_comma st)
    else if c = ' ' then unwrapScan (scan_whitespace_symbol st)
    else if c = 'B' then scanOrElse (scan_begin st) letterUnwrap
    else if c = 'E' then scanOrElse (scan_end st) letterUnwrap
    else if c = 'V' then scanOrElse (scan_version st) letterUnwrap
    else if c = 'C' then
      scanOrElse (scan_comment st) (fun s1 => scanOrElse (scan_charset s1) letterUnwrap)
    else if c = 'H' then scanOrElse (scan_hash st) letterUnwrap
    else if c = 'P' then
      scanOrElse (scan_pgp_message st) (fun s1 =>
        scanOrElse (scan_pgp_public_key_block s1) (fun s2 =>
          scanOrElse (scan_pgp_private_key_block s2) (fun s3 =>
            scanOrElse (scan_pgp_message_part s3) (fun s4 =>
              scanOrElse (scan_pgp_message_part s4) (fun s5 =>
                scanOrElse (scan_pgp_signature s5) letterUnwrap)))))
    else if c = 'M' then scanOrElse (scan_messageid st) letterUnwrap
    else if c = '\n' then
      match scan_blankline st with
      | (some t, st') => some (t, st')
      | (none, st') => unwrapScan (scan_newline st')
    else if '0' ≤ c ∧ c ≤ '9' then
      match scan_digit st with
      | (some t, st') => some (t, st')
      | (none, _) => none
    else if ('a' ≤ c ∧ c ≤ 'z') ∨ ('A' ≤ c ∧ c ≤ 'Z') then letterUnwrap st
    else unwrapScan (scan_other_utf8 st)

/-- The `Iterator` implementation for `Lexer`: `next` stops (returns
`None`) at the `Eof` token and yields every other token.  `runLexer`
collects the whole stream; the fuel dominates the iteration count because
every non-`Eof` token consumes at least one character. -/
def runLexer : Nat → LexState → Option (List Token)
  | 0, _ => none
  | fuel + 1, st =>
    match next_token st with
    | none => none
    | some (t, st') =>
      if t.token_type = .Eof then some []
      else (runLexer fuel st').map (fun ts => t :: ts)

/-- Lex a whole string from offset `0`, as `Lexer::new(input.chars())`
iterated to exhaustion. -/
def lexTokens (s : String) : Option (List Token) :=
  runLexer (s.length + 1) ⟨s.data, 0⟩

/-! ## `src/parser.rs` — the grammar-directed parser

`Parser<S>` owns a token `lookahead` buffer (`VecDeque<Token>`), a stack
of backtracking `markers` (`Vec<usize>`), and an `offset` into the
buffer.  `peek_token` pulls tokens from the lexer into the buffer on
demand (`sync`/`fill`); `read_token` merely advances `offset`;
`backtrack` pops a marker (or resets the offset to `0` when the marker
stack is empty); `consume` drops the consumed prefix of the buffer and
clears the markers.  The lexer input is modelled as the list of tokens
the `Lexer` iterator yields.  Indexing `lookahead[offset]` out of bounds
and `parse::<usize>().unwrap()` failures are Rust panics, modelled as
`none`. -/

inductive MessageType where
  | PGPMessage
  | PGPPublicKeyBlock
  | PGPPrivateKeyBlock
  | PGPSignature
  | PGPMessagePartXofY (x y : Nat)
  | PGPMessagePartX (x : Nat)
deriving DecidableEq

inductive HeaderType where
  | Version
  | Comment
  | MessageID
  | Hash
  | Charset
  | OtherHeader (s : String)
deriving DecidableEq

inductive ParseError where
  | CorruptHeader
  | InvalidHeaderLine
  | EndOfFile
  | ParseError
deriving DecidableEq

deriving instance DecidableEq for Except

/-- Rust `token_type_to_header_type` from `src/parser.rs`. -/
def token_type_to_header_type (tt : TokenType) : HeaderType :=
  match tt with
  | .Version => .Version
  | .Comment => .Comment
  | .MessageID => .MessageID
  | .Hash => .Hash
  | .Charset => .Charset
  | _ => .OtherHeader ""

/-- The mutable state of `Parser<S>`. -/
structure PState where
  input : List Token
  lookahead : List Token
  markers : List Nat
  offset : Nat
deriving DecidableEq

/-- Rust `Parser::new`: empty lookahead, no markers, offset `0`. -/
def mkParserState (ts : List Token) : PState := ⟨ts, [], [], 0⟩

/-- Rust `Parser::fill`: pull up to `n` tokens from the lexer into the back of
the lookahead buffer, stopping early when the lexer is exhausted. -/
def fill : Nat → PState → PState
  | 0, st => st
  | n + 1, st =>
    match st.input with
    | [] => st
    | t :: rest => fill n { st with input := rest, lookahead := st.lookahead ++ [t] }

/-- Rust `Parser::sync`: `if offset > lookahead.len()-1 { fill(offset - (lookahead.len()-1)) }`
(the subtraction is on `usize`; `sync` is only reached with a nonempty
buffer, so it cannot underflow). -/
def sync (st : PState) : PState :=
  if st.lookahead.length - 1 < st.offset then
    fill (st.offset - (st.lookahead.length - 1)) st
  else st

/-- Rust `Parser::peek_token`: on an empty buffer reset the offset and pull one
token from the lexer; otherwise `sync` and index `lookahead[offset]` —
a Rust panic (modelled `none`) when the index is out of bounds. -/
def peek_token (st : PState) : Option (Option Token × PState) :=
  if st.lookahead.isEmpty then
    match st.input with
    | t :: rest =>
      some (some t, { st with input := rest, lookahead := st.lookahead ++ [t], offset := 0 })
    | [] => some (none, { st with offset := 0 })
  else
    let st' := sync st
    match st'.lookahead[st'.offset]? with
    | some t => some (some t, st')
    | none => none

/-- Rust `Parser::read_token`: `offset += 1`. -/
def read_token (st : PState) : PState := { st with offset := st.offset + 1 }

/-- Rust `Parser::mark`: push the current offset on the marker stack. -/
def mark (st : PState) : PState := { st with markers := st.offset :: st.markers }

/-- Rust `Parser::backtrack`: pop a marker into the offset, or reset the offset
to `0` when no marker is left. -/
def backtrack (st : PState) : PState :=
  match st.markers with
  | [] => { st with offset := 0 }
  | m :: ms => { st with offset := m, markers := ms }

/-- Rust `Parser::consume`: pop the first `offset` tokens off the buffer, clear
the markers, reset the offset. -/
def consume (st : PState) : PState :=
  { st with lookahead := st.lookahead.drop st.offset, markers := [], offset := 0 }

/-- Model of `str::parse::<usize>()` on the digit string accumulated by
`parse_number`: fails on an empty string, a non-digit character, or a
value that does not fit in `usize`.  (The source `unwrap`s the result, so
a failure there is a panic.) -/
def natFromDigits (s : List Char) : Option Nat :=
  if s ≠ [] ∧ s.all Char.isDigit then
    if s.foldl (fun a c => 10 * a + (c.toNat - 48)) 0 < 2 ^ 64 then
      some (s.foldl (fun a c => 10 * a + (c.toNat - 48)) 0)
    else none
  else none

/-- The `while let Some(token) = peek_token` loop of
`Parser::parse_number`: read `Digit` tokens, accumulating their lexemes;
stop on any other token or on end of input.  Fuel dominates the iteration
count (each iteration consumes a buffered token), so the loop computes
what the source loop computes. -/
def parse_number_loop (fuel : Nat) (acc : List Char) (st : PState) :
    Option (List Char × PState) :=
  match fuel with
  | 0 => none
  | fuel + 1 =>
    match peek_token st with
    | none => none
    | some (none, st') => some (acc, st')
    | some (some t, st') =>
      if t.token_type = .Digit then parse_number_loop fuel (acc ++ t.text.data) (read_token st')
      else some (acc, st')

/-- Rust `Parser::parse_number`: mark, run the digit loop, then either
`parse::<usize>().unwrap()` the accumulated string (a panic when it
fails), or — when nothing was read — report `EndOfFile` or backtrack with
`ParseError` depending on a second peek. -/
def parse_number (st : PState) : Option (Except ParseError Nat × PState) :=
  let st0 := mark st
  match parse_number_loop (st0.input.length + st0.lookahead.length + 1) [] st0 with
  | none => none
  | some (res, st1) =>
    if res ≠ [] then
      match natFromDigits res with
      | some v => some (.ok v, st1)
      | none => none
    else
      match peek_token st1 with
      | none => none
      | some (none, st2) => some (.error .EndOfFile, st2)
      | some (some _, st2) => some (.error .ParseError, backtrack st2)

/-- Rust `Parser::parse_part_x`: mark, `try_or_backtrack(parse_number)`, then
peek for `FiveDashes` (without reading it); anything else backtracks with
`CorruptHeader`. -/
def parse_part_x (st : PState) : Option (Except ParseError Nat × PState) :=
  let st0 := mark st
  match parse_number st0 with
  | none => none
  | some (.error e, st1) => some (.error e, backtrack st1)
  | some (.ok x, st1) =>
    match peek_token st1 with
    | none => none
    | some (none, st2) => some (.error .EndOfFile, st2)
    | some (some t, st2) =>
      if t.token_type = .FiveDashes then some (.ok x, st2)
      else some (.error .CorruptHeader, backtrack st2)

/-- Rust `Parser::parse_part_x_div_y`: mark, `try_or_backtrack(parse_number)`,
require a `ForwardSlash` (read it), then a second
`try_or_backtrack(parse_number)`. -/
def parse_part_x_div_y (st : PState) : Option (Except ParseError (Nat × Nat) × PState) :=
  let st0 := mark st
  match parse_number st0 with
  | none => none
  | some (.error e, st1) => some (.error e, backtrack st1)
  | some (.ok x, st1) =>
    match peek_token st1 with
    | none => none
    | some (none, st2) => some (.error .EndOfFile, backtrack st2)
    | some (some t, st2) =>
      if t.token_type = .ForwardSlash then
        match parse_number (read_token st2) with
        | none => none
        | some (.error e, st3) => some (.error e, backtrack st3)
        | some (.ok y, st3) => some (.ok (x, y), st3)
      else some (.error .CorruptHeader, backtrack st2)

/-- Rust `Parser::parse_pgp_message_part`: after the `PGPMessagePart` token,
first try `parse_part_x_div_y` (the longer `MessagePartXofY` reduction);
on its failure backtrack and try `parse_part_x`; on failure of both,
backtrack with `CorruptHeader`. -/
def parse_pgp_message_part (st : PState) : Option (Except ParseError MessageType × PState) :=
  let st0 := mark st
  match peek_token st0 with
  | none => none
  | some (none, st1) => some (.error .EndOfFile, st1)
  | some (some t, st1) =>
    if t.token_type = .PGPMessagePart then
      let st2 := read_token st1
      match parse_part_x_div_y st2 with
      | none => none
      | some (.ok (x, y), st3) => some (.ok (.PGPMessagePartXofY x y), st3)
      | some (.error _, st3) =>
        let st4 := backtrack st3
        match parse_part_x st4 with
        | none => none
        | some (.ok x, st5) => some (.ok (.PGPMessagePartX x), st5)
        | some (.error _, st5) => some (.error .CorruptHeader, backtrack st5)
    else some (.error .CorruptHeader, backtrack st1)

/-- The loop of `Parser::parse_header_text`: accumulate the lexemes of
every token up to the next reserved-keyword or `BlankLine` token; end of
input is an `EndOfFile` error. -/
def parse_header_text_loop (fuel : Nat) (acc : List Char) (st : PState) :
    Option (Except ParseError (List Char) × PState) :=
  match fuel with
  | 0 => none
  | fuel + 1 =>
    match peek_token st with
    | none => none
    | some (none, st') => some (.error .EndOfFile, st')
    | some (some t, st') =>
      match t.token_type with
      | .Version | .Comment | .MessageID | .Hash | .Charset | .BlankLine =>
        some (.ok acc, st')
      | _ => parse_header_text_loop fuel (acc ++ t.text.data) (read_token st')

/-- Rust `Parser::parse_header_text`. -/
def parse_header_text (st : PState) : Option (Except ParseError (List Char) × PState) :=
  parse_header_text_loop (st.input.length + st.lookahead.length + 1) [] st

/-- The loop of `Parser::skip_whitespace`: read `WhiteSpace` tokens until
any other token (or end of input). -/
def skip_whitespace_loop (fuel : Nat) (st : PState) : Option PState :=
  match fuel with
  | 0 => none
  | fuel + 1 =>
    match peek_token st with
    | none => none
    | some (none, st') => some st'
    | some (some t, st') =>
      if t.token_type = .WhiteSpace then skip_whitespace_loop fuel (read_token st')
      else some st'

/-- Rust `Parser::skip_whitespace`. -/
def skip_whitespace (st : PState) : Option PState :=
  skip_whitespace_loop (st.input.length + st.lookahead.length + 1) st

/-- Rust `Parser::parse_headerkv`: a reserved-keyword token (anything else is
`InvalidHeaderLine`), whitespace, a `ColonSpace` token (else
`InvalidHeaderLine`), whitespace, then the header text; finally `consume`
and return the pair. -/
def parse_headerkv (st : PState) : Option (Except ParseError (HeaderType × String) × PState) :=
  match peek_token st with
  | none => none
  | some (none, st1) => some (.error .EndOfFile, st1)
  | some (some t, st1) =>
    match t.token_type with
    | .Version | .Comment | .MessageID | .Hash | .Charset =>
      match skip_whitespace (read_token st1) with
      | none => none
      | some st2 =>
        match peek_token st2 with
        | none => none
        | some (none, st3) => some (.error .EndOfFile, st3)
        | some (some t2, st3) =>
          if t2.token_type = .ColonSpace then
            match skip_whitespace (read_token st3) with
            | none => none
            | some st4 =>
              match peek_token st4 with
              | none => none
              | some (none, st5) => some (.error .EndOfFile, st5)
              | some (some _, st5) =>
                match parse_header_text st5 with
                | none => none
                | some (.error e, st6) => some (.error e, st6)
                | some (.ok text, st6) =>
                  some (.ok (token_type_to_header_type t.token_type, String.mk text),
                    consume st6)
          else some (.error .InvalidHeaderLine, st3)
    | _ => some (.error .InvalidHeaderLine, st1)

/-- The loop of `Parser::parse_header_block`: a reserved-keyword token
starts a `parse_headerkv` line (collected into the result); a `BlankLine`
is read and ends the block; any other token is a `CorruptHeader` error;
end of input is `EndOfFile`. -/
def parse_header_block_loop (fuel : Nat) (acc : List (HeaderType × String)) (st : PState) :
    Option (Except ParseError (List (HeaderType × String)) × PState) :=
  match fuel with
  | 0 => none
  | fuel + 1 =>
    match peek_token st with
    | none => none
    | some (none, st') => some (.error .EndOfFile, st')
    | some (some t, st') =>
      match t.token_type with
      | .Version | .Comment | .MessageID | .Hash | .Charset =>
        match parse_headerkv st' with
        | none => none
        | some (.error e, st2) => some (.error e, st2)
        | some (.ok kv, st2) => parse_header_block_loop fuel (acc ++ [kv]) st2
      | .BlankLine => some (.ok acc, consume (read_token st'))
      | _ => some (.error .CorruptHeader, st')

/-- Rust `Parser::parse_header_block`. -/
def parse_header_block (st : PState) :
    Option (Except ParseError (List (HeaderType × String)) × PState) :=
  parse_header_block_loop (st.input.length + st.lookahead.length + 1) [] st

/-! ## Parser machinery lemmas

The buffer machinery is a zipper over the stream of all tokens the lexer
will ever yield: `buf st = st.lookahead ++ st.input` is invariant under
`peek_token`, `fill`, `read_token`, `mark` and `backtrack`, and the
not-yet-consumed tokens are `buf st |>.drop st.offset`.  All lemmas assume
the offset invariant `st.offset ≤ st.lookahead.length`, which `Parser::new`
establishes and every operation preserves. -/

def PState.buf (st : PState) : List Token := st.lookahead ++ st.input

/-- The concatenation of the lexemes of a token run, as accumulated by
`parse_number` / `parse_header_text`. -/
def digitsText (ds : List Token) : List Char := (ds.map (fun d => d.text.data)).join

/-- The token stream of the envelope fragment `PGP MESSAGE, PART 0/5`. -/
def part05Tokens : List Token :=
  [⟨.PGPMessagePart, "PGP MESSAGE, PART ", ⟨0⟩⟩, ⟨.Digit, "0", ⟨18⟩⟩,
   ⟨.ForwardSlash, "/", ⟨19⟩⟩, ⟨.Digit, "5", ⟨20⟩⟩, ⟨.FiveDashes, "-----", ⟨21⟩⟩]

/-! ## Bit-arithmetic helper lemmas -/

theorem xor_mod_two_pow (x y n : Nat) :
    (x ^^^ y) % 2 ^ n = (x % 2 ^ n) ^^^ (y % 2 ^ n) := by
  apply Nat.eq_of_testBit_eq
  intro i
  simp only [Nat.testBit_mod_two_pow, Nat.testBit_xor]
  by_cases h : i < n <;> simp [h]

theorem testBit_eq_of_mod_eq {a b n : Nat} (h : a % 2 ^ n = b % 2 ^ n) {i : Nat}
    (hi : i < n) : a.testBit i = b.testBit i := by
  have h2 := congrArg (fun z => Nat.testBit z i) h
  simpa [Nat.testBit_mod_two_pow, hi] using h2

theorem and_bit24_congr {a b : Nat} (h : a % 2 ^ 25 = b % 2 ^ 25) :
    a &&& 0x1000000 = b &&& 0x1000000 := by
  have h24 : (0x1000000 : Nat) = 2 ^ 24 := by norm_num
  rw [h24, Nat.and_two_pow, Nat.and_two_pow,
    testBit_eq_of_mod_eq h (by norm_num : (24 : Nat) < 25)]

/-! ## CRC-24: the wide accumulator agrees with the 32-bit reference

Only bits 0–24 of the accumulator are ever inspected (the branch reads
bit 24, the XOR touches bits 0–24, the final mask keeps bits 0–23), so the
`usize` accumulator and the 32-bit reference accumulator stay congruent
modulo `2 ^ 25` throughout. -/

theorem crcRound_congr {a b : Nat} (h : a % 2 ^ 25 = b % 2 ^ 25) :
    crcRound a % 2 ^ 25 = crcRefRound b % 2 ^ 25 := by
  have hc : ((a <<< 1) % 2 ^ 64) % 2 ^ 25 = ((b <<< 1) % 2 ^ 32) % 2 ^ 25 := by
    rw [Nat.mod_mod_of_dvd _ (pow_dvd_pow 2 (by norm_num : 25 ≤ 64)),
      Nat.mod_mod_of_dvd _ (pow_dvd_pow 2 (by norm_num : 25 ≤ 32)),
      Nat.shiftLeft_eq, Nat.shiftLeft_eq, pow_one]
    exact Nat.ModEq.mul_right 2 h
  unfold crcRound crcRefRound
  rw [and_bit24_congr hc]
  by_cases hif : ((b <<< 1) % 2 ^ 32) &&& 0x1000000 ≠ 0
  · rw [if_pos hif, if_pos hif, xor_mod_two_pow, xor_mod_two_pow, hc]
  · rw [if_neg hif, if_neg hif]
    exact hc

theorem crcRound_iter_congr (n : Nat) {a b : Nat} (h : a % 2 ^ 25 = b % 2 ^ 25) :
    (crcRound^[n] a) % 2 ^ 25 = (crcRefRound^[n] b) % 2 ^ 25 := by
  induction n generalizing a b with
  | zero => simpa using h
  | succ n ih =>
    rw [Function.iterate_succ_apply, Function.iterate_succ_apply]
    exact ih (crcRound_congr h)

theorem crcOctetStep_congr (o : Nat) {a b : Nat} (h : a % 2 ^ 25 = b % 2 ^ 25) :
    crcOctetStep a o % 2 ^ 25 = crcRefOctetStep b o % 2 ^ 25 := by
  unfold crcOctetStep crcRefOctetStep
  apply crcRound_iter_congr
  rw [Nat.mod_mod_of_dvd _ (pow_dvd_pow 2 (by norm_num : 25 ≤ 32)),
    xor_mod_two_pow, xor_mod_two_pow, h,
    Nat.mod_mod_of_dvd _ (pow_dvd_pow 2 (by norm_num : 25 ≤ 64)),
    Nat.mod_mod_of_dvd _ (pow_dvd_pow 2 (by norm_num : 25 ≤ 32))]

theorem crcFold_congr (P : List Nat) {a b : Nat} (h : a % 2 ^ 25 = b % 2 ^ 25) :
    (P.foldl crcOctetStep a) % 2 ^ 25 = (P.foldl crcRefOctetStep b) % 2 ^ 25 := by
  induction P generalizing a b with
  | nil => simpa using h
  | cons o P ih =>
    simp only [List.foldl_cons]
    exact ih (crcOctetStep_congr o h)

/-- Claim C2: for every octet sequence `P`, `crc_octets P` — computed with the
wide `usize` accumulator of `src/crc24.rs` — is bit-for-bit equal to the
RFC 4880 §6.1 reference computation on a 32-bit accumulator (initialise to
`0xB704CE`; per octet XOR `b << 16` in, then eight times shift left and
XOR the polynomial `0x1864CFB` whenever bit 24 is set; finally mask with
`0xFFFFFF`). -/
theorem crc_octets_eq_ref (P : List Nat) : crc_octets P = crc24Ref P := by
  unfold crc_octets crc24Ref
  have h := crcFold_congr P (a := CRC24_INIT) (b := CRC24_INIT) rfl
  have hm : (0xFFFFFF : Nat) = 2 ^ 24 - 1 := by norm_num
  rw [hm, Nat.and_pow_two_sub_one_eq_mod, Nat.and_pow_two_sub_one_eq_mod,
    (Nat.mod_mod_of_dvd (P.foldl crcOctetStep CRC24_INIT)
      (pow_dvd_pow 2 (by norm_num : 24 ≤ 25))).symm,
    (Nat.mod_mod_of_dvd (P.foldl crcRefOctetStep CRC24_INIT)
      (pow_dvd_pow 2 (by norm_num : 24 ≤ 25))).symm, h]

/-- Claim C8: `crc_octets` of the empty octet sequence is exactly the
initialisation constant `0xB704CE`. -/
theorem crc_octets_nil : crc_octets [] = 0xB704CE := by decide

/-- Sanity check against the repository's own `crc24.rs` test vectors. -/
theorem crc_octets_test_vector :
    crc_octets [0x14, 0xFB, 0x9C, 0x03] = 15804535 ∧
      crc_octets [0x14, 0xFB, 0x9C, 0x03, 0xD9, 0x7E] = 6927321 := by decide

/-! ## Base64 round-trip -/

theorem mask_extract (x m : Nat) : (x &&& (63 <<< m)) >>> m = x / 2 ^ m % 64 := by
  rw [← Nat.shiftRight_eq_div_pow]
  apply Nat.eq_of_testBit_eq
  intro i
  have h63 : (63 : Nat) = 2 ^ 6 - 1 := by norm_num
  have h64 : (64 : Nat) = 2 ^ 6 := by norm_num
  rw [h63, h64]
  simp only [Nat.testBit_shiftRight, Nat.testBit_and, Nat.testBit_shiftLeft,
    Nat.testBit_mod_two_pow, Nat.testBit_two_pow_sub_one, Nat.le_add_right,
    decide_True, Bool.true_and, Nat.add_sub_cancel_left]
  by_cases h : i < 6 <;> simp [h, Bool.and_comm]

theorem fold_step (acc s : Nat) (hacc : acc < 2 ^ 26) (hs : s < 64) :
    ((acc <<< 6) % 2 ^ 32) ||| (s &&& SEXTET_MASK) = 64 * acc + s := by
  have h1 : acc <<< 6 = 2 ^ 6 * acc := by rw [Nat.shiftLeft_eq]; ring
  have h2 : (2 ^ 6 * acc) % 2 ^ 32 = 2 ^ 6 * acc := by
    apply Nat.mod_eq_of_lt
    norm_num at hacc ⊢
    omega
  have h3 : s &&& SEXTET_MASK = s := by
    show s &&& 63 = s
    rw [show (63 : Nat) = 2 ^ 6 - 1 by norm_num, Nat.and_pow_two_sub_one_eq_mod]
    exact Nat.mod_eq_of_lt hs
  rw [h1, h2, h3, ← Nat.mul_add_lt_is_or hs]

theorem to_octet_four (s0 s1 s2 s3 : Nat) (h0 : s0 < 64) (h1 : s1 < 64)
    (h2 : s2 < 64) (h3 : s3 < 64) :
    (Base64.mk [s0, s1, s2, s3]).to_octet =
      some (64 * (64 * (64 * s0 + s1) + s2) + s3) := by
  unfold Base64.to_octet
  simp only [List.length_cons, List.length_nil, List.foldl]
  rw [if_pos (by norm_num)]
  rw [fold_step 0 s0 (by norm_num) h0]
  rw [fold_step (64 * 0 + s0) s1 (by omega) h1]
  rw [fold_step (64 * (64 * 0 + s0) + s1) s2 (by omega) h2]
  rw [fold_step (64 * (64 * (64 * 0 + s0) + s1) + s2) s3 (by omega) h3]
  congr 1
  ring

/-- Claim C7: for every 24-bit group value `o`, decoding the four sextets
produced by `Base64::from_octet o` yields exactly `o` again —
`(from_octet o).to_octet = some o`. -/
theorem base64_from_to_octet (o : Nat) (h : o < 2 ^ 24) :
    (Base64.from_octet o).to_octet = some o := by
  have hdata : Base64.from_octet o =
      ⟨[(o &&& (63 <<< 18)) >>> 18, (o &&& (63 <<< 12)) >>> 12,
        (o &&& (63 <<< 6)) >>> 6, (o &&& (63 <<< 0)) >>> 0]⟩ := rfl
  rw [hdata, mask_extract, mask_extract, mask_extract, mask_extract]
  rw [to_octet_four _ _ _ _ (Nat.mod_lt _ (by norm_num)) (Nat.mod_lt _ (by norm_num))
    (Nat.mod_lt _ (by norm_num)) (Nat.mod_lt _ (by norm_num))]
  congr 1
  have h24 : o < 16777216 := by omega
  omega

/-- Witness for claim C7 at the concrete input `0x123456`. -/
theorem base64_from_to_octet_witness :
    (0x123456 : Nat) < 2 ^ 24 ∧ (Base64.from_octet 0x123456).to_octet = some 0x123456 :=
  ⟨by norm_num, base64_from_to_octet 0x123456 (by norm_num)⟩

/-- Claim C10: `Base64::to_octet` returns `some` packed value exactly when the
container holds at most four sextets (for the empty container the packed
value is `0`), and `none` when it holds five or more. -/
theorem to_octet_some_iff (data : List Nat) :
    ((Base64.mk data).to_octet.isSome ↔ data.length ≤ 4) ∧
      (Base64.mk ([] : List Nat)).to_octet = some 0 := by
  refine ⟨?_, rfl⟩
  by_cases h : data.length ≤ 4 <;> simp [Base64.to_octet, h]

/-! ## Tokenizer theorems -/

/-- Claim C1 (evidence of the code bug): on the input `"?"` — a character
that does not start any longer terminal — `next_token` does not return an
`OtherUtf8` token; it panics, because the `scan_other_utf8` fallback calls
`scan_symbol(TokenType::OtherUTF8)`, which `unwrap`s
`armor_string(OtherUTF8) == None`. -/
theorem next_token_panics_on_other_utf8 : next_token ⟨['?'], 0⟩ = none := rfl

/-- Claim C5 (evidence of the code bug): a single carriage return `'\r'`
does not produce a `Newline` token; `next_token` has no `'\r'` arm, so the
input falls through to the panicking `scan_other_utf8` fallback. -/
theorem next_token_panics_on_carriage_return : next_token ⟨['\r'], 0⟩ = none := rfl

/-- Claim C9, counterexample: at end of stream `next_token` returns the `Eof`
token carrying `Location::eof()`, whose `absolute` field is `-1` — a
negative byte offset. -/
theorem eof_token_location_negative :
    next_token ⟨[], 0⟩ = some (⟨.Eof, "EOF", ⟨-1⟩⟩, ⟨[], 0⟩) ∧ (-1 : Int) < 0 :=
  ⟨rfl, by norm_num⟩

theorem matchChars_ge (e : Int) :
    ∀ (pat input : List Char) (loc : Int), e ≤ loc →
      e ≤ (matchChars e pat input loc).2.2 := by
  intro pat
  induction pat with
  | nil => intro input loc hle; simpa [matchChars] using hle
  | cons c cs ih =>
    intro input loc hle
    match input with
    | [] => simpa [matchChars] using hle
    | x :: xs =>
      by_cases hx : x = c
      · simpa [matchChars, hx] using ih xs (loc + 1) (by omega)
      · simp [matchChars, hx]

theorem match_terminal_found {s : String} {st : LexState} {t : Token} {st' : LexState}
    (h : match_terminal_symbol s st = .found t st') :
    t.location.absolute = st.location ∧ st.location ≤ st'.location := by
  unfold match_terminal_symbol at h
  rcases hm : matchChars st.location s.data st.input st.location with ⟨b, input', loc'⟩
  rw [hm] at h
  have hge : st.location ≤ loc' := by
    have h2 := matchChars_ge st.location s.data st.input st.location le_rfl
    rw [hm] at h2
    exact h2
  cases b
  · simp at h
  · rcases hs : string_to_token_type s with _ | tt <;> rw [hs] at h
    · simp at h
    · cases h
      exact ⟨rfl, hge⟩

theorem match_terminal_noMatch {s : String} {st st' : LexState}
    (h : match_terminal_symbol s st = .noMatch st') : st.location ≤ st'.location := by
  unfold match_terminal_symbol at h
  rcases hm : matchChars st.location s.data st.input st.location with ⟨b, input', loc'⟩
  rw [hm] at h
  have hge : st.location ≤ loc' := by
    have h2 := matchChars_ge st.location s.data st.input st.location le_rfl
    rw [hm] at h2
    exact h2
  cases b
  · cases h
    exact hge
  · rcases hs : string_to_token_type s with _ | tt <;> rw [hs] at h <;> simp at h

theorem scan_symbol_found {tt : TokenType} {st : LexState} {t : Token} {st' : LexState}
    (h : scan_symbol tt st = .found t st') :
    t.location.absolute = st.location ∧ st.location ≤ st'.location := by
  unfold scan_symbol at h
  rcases ha : armor_string tt with _ | s <;> rw [ha] at h
  · simp at h
  · exact match_terminal_found h

theorem scan_symbol_noMatch {tt : TokenType} {st st' : LexState}
    (h : scan_symbol tt st = .noMatch st') : st.location ≤ st'.location := by
  unfold scan_symbol at h
  rcases ha : armor_string tt with _ | s <;> rw [ha] at h
  · simp at h
  · exact match_terminal_noMatch h

theorem scanOrElse_inv {r : ScanOutcome} {fb : LexState → Option (Token × LexState)}
    {t : Token} {st' : LexState} (h : scanOrElse r fb = some (t, st')) :
    r = .found t st' ∨ ∃ s, r = .noMatch s ∧ fb s = some (t, st') := by
  cases r with
  | found t0 s0 =>
    simp only [scanOrElse, Option.some.injEq, Prod.mk.injEq] at h
    exact Or.inl (by rw [h.1, h.2])
  | noMatch s0 => exact Or.inr ⟨s0, rfl, h⟩
  | fatal => simp [scanOrElse] at h

theorem unwrapScan_inv {r : ScanOutcome} {t : Token} {st' : LexState}
    (h : unwrapScan r = some (t, st')) : r = .found t st' := by
  cases r with
  | found t0 s0 =>
    simp only [unwrapScan, Option.some.injEq, Prod.mk.injEq] at h
    rw [h.1, h.2]
  | noMatch s0 => simp [unwrapScan] at h
  | fatal => simp [unwrapScan] at h

theorem unwrap_symbol_le {tt : TokenType} {st : LexState} {t : Token} {st' : LexState}
    (h : unwrapScan (scan_symbol tt st) = some (t, st')) :
    st.location ≤ t.location.absolute ∧ st.location ≤ st'.location := by
  obtain ⟨heq, hle⟩ := scan_symbol_found (unwrapScan_inv h)
  exact ⟨by omega, hle⟩

theorem scan_letter_some {st : LexState} {t : Token} {st' : LexState}
    (h : scan_letter st = (some t, st')) :
    t.location.absolute = st.location ∧ st.location ≤ st'.location := by
  obtain ⟨input, loc⟩ := st
  cases input with
  | nil => simp [scan_letter] at h
  | cons c rest =>
    simp only [scan_letter] at h
    split at h
    · simp only [Prod.mk.injEq, Option.some.injEq] at h
      obtain ⟨rfl, rfl⟩ := h
      refine ⟨rfl, ?_⟩
      show loc ≤ loc + 1
      omega
    · simp at h

theorem letterUnwrap_le {st : LexState} {t : Token} {st' : LexState}
    (h : letterUnwrap st = some (t, st')) :
    st.location ≤ t.location.absolute ∧ st.location ≤ st'.location := by
  unfold letterUnwrap at h
  rcases hl : scan_letter st with ⟨ot, s0⟩
  rw [hl] at h
  cases ot
  · simp at h
  · simp only [Option.some.injEq, Prod.mk.injEq] at h
    obtain ⟨rfl, rfl⟩ := h
    obtain ⟨heq, hle⟩ := scan_letter_some hl
    exact ⟨by omega, hle⟩

theorem scan_digit_some {st : LexState} {t : Token} {st' : LexState}
    (h : scan_digit st = (some t, st')) :
    t.location.absolute = st.location ∧ st.location ≤ st'.location := by
  obtain ⟨input, loc⟩ := st
  cases input with
  | nil => simp [scan_digit] at h
  | cons c rest =>
    simp only [scan_digit] at h
    split at h
    · simp only [Prod.mk.injEq, Option.some.injEq] at h
      obtain ⟨rfl, rfl⟩ := h
      refine ⟨rfl, ?_⟩
      show loc ≤ loc + 1
      omega
    · simp at h

theorem blanklineLoop_ge (e : Int) :
    ∀ (input acc : List Char) (loc : Int), e ≤ loc →
      e ≤ (blanklineLoop e acc input loc).2.2 := by
  intro input
  induction input with
  | nil => intro acc loc _; simp [blanklineLoop]
  | cons c xs ih =>
    intro acc loc hle
    by_cases hsp : c = ' '
    · subst hsp
      simpa [blanklineLoop] using ih (acc ++ [' ']) (loc + 1) (by omega)
    · by_cases hnl : c = '\n'
      · subst hnl
        simp [blanklineLoop]
        omega
      · simp [blanklineLoop, hsp, hnl]

theorem scan_blankline_some {st : LexState} {t : Token} {st' : LexState}
    (h : scan_blankline st = (some t, st')) :
    t.location.absolute = st.location ∧ st.location ≤ st'.location := by
  obtain ⟨input, loc⟩ := st
  cases input with
  | nil => simp [scan_blankline] at h
  | cons c xs =>
    simp only [scan_blankline] at h
    split at h
    · rcases hbl : blanklineLoop loc ['\n'] xs (loc + 1) with ⟨oacc, input', loc'⟩
      rw [hbl] at h
      have hge : loc ≤ loc' := by
        have h2 := blanklineLoop_ge loc xs ['\n'] (loc + 1) (by omega)
        rw [hbl] at h2
        exact h2
      cases oacc
      · simp at h
      · simp only [Option.some.injEq, Prod.mk.injEq] at h
        obtain ⟨rfl, rfl⟩ := h
        exact ⟨rfl, hge⟩
    · simp at h

theorem scan_blankline_none {st st' : LexState}
    (h : scan_blankline st = (none, st')) : st.location ≤ st'.location := by
  obtain ⟨input, loc⟩ := st
  cases input with
  | nil =>
    simp only [scan_blankline, Prod.mk.injEq] at h
    rw [← h.2]
  | cons c xs =>
    simp only [scan_blankline] at h
    split at h
    · rcases hbl : blanklineLoop loc ['\n'] xs (loc + 1) with ⟨oacc, input', loc'⟩
      rw [hbl] at h
      have hge : loc ≤ loc' := by
        have h2 := blanklineLoop_ge loc xs ['\n'] (loc + 1) (by omega)
        rw [hbl] at h2
        exact h2
      cases oacc
      · simp only [Prod.mk.injEq] at h
        rw [← h.2]
        exact hge
      · simp at h
    · simp only [Prod.mk.injEq] at h
      rw [← h.2]

theorem orElse_symbol_le {tt : TokenType} {st0 s : LexState}
    {fb : LexState → Option (Token × LexState)} {t : Token} {st' : LexState}
    (hbase : st0.location ≤ s.location)
    (h : scanOrElse (scan_symbol tt s) fb = some (t, st'))
    (hfb : ∀ s2, s.location ≤ s2.location → fb s2 = some (t, st') →
      st0.location ≤ t.location.absolute ∧ st0.location ≤ st'.location) :
    st0.location ≤ t.location.absolute ∧ st0.location ≤ st'.location := by
  rcases scanOrElse_inv h with hf | ⟨sm, hno, hfb2⟩
  · obtain ⟨heq, hle⟩ := scan_symbol_found hf
    exact ⟨by omega, le_trans hbase hle⟩
  · exact hfb sm (scan_symbol_noMatch hno) hfb2

/-- Core invariant of the tokenizer: a successful `next_token` call never
creates a non-`Eof` token behind the entry location, and never rewinds the
location below the entry location. -/
theorem next_token_le {st : LexState} {t : Token} {st' : LexState}
    (h : next_token st = some (t, st')) (hne : t.token_type ≠ .Eof) :
    st.location ≤ t.location.absolute ∧ st.location ≤ st'.location := by
  obtain ⟨input, loc⟩ := st
  cases input with
  | nil =>
    exfalso
    apply hne
    simp only [next_token, List.head?, scan_eof, Option.map] at h
    simp only [Option.some.injEq, Prod.mk.injEq] at h
    rw [← h.1]
  | cons c rest =>
    simp only [next_token, List.head?,
      scan_five_dashes, scan_colon_space, scan_forwardslash, scan_colon, scan_plus_sign,
      scan_pad_symbol, scan_whitespace_symbol, scan_comma, scan_newline, scan_begin,
      scan_end, scan_version, scan_comment, scan_messageid, scan_hash, scan_charset,
      scan_pgp_message, scan_pgp_public_key_block, scan_pgp_private_key_block,
      scan_pgp_message_part, scan_pgp_signature, scan_other_utf8] at h
    by_cases hc1 : c = '-'
    · -- '-' : FiveDashes, fallback panics
      rw [if_pos hc1] at h
      refine orElse_symbol_le le_rfl h ?_
      intro s2 _ hfb
      have h2 := unwrapScan_inv hfb
      simp [scan_symbol, armor_string] at h2
    rw [if_neg hc1] at h
    by_cases hc2 : c = '='
    · rw [if_pos hc2] at h
      exact unwrap_symbol_le h
    rw [if_neg hc2] at h
    by_cases hc3 : c = '/'
    · rw [if_pos hc3] at h
      exact unwrap_symbol_le h
    rw [if_neg hc3] at h
    by_cases hc4 : c = ':'
    · -- ':' : ColonSpace, fallback Colon
      rw [if_pos hc4] at h
      refine orElse_symbol_le le_rfl h ?_
      intro s2 hs2 hfb
      obtain ⟨a, b⟩ := unwrap_symbol_le hfb
      exact ⟨le_trans hs2 a, le_trans hs2 b⟩
    rw [if_neg hc4] at h
    by_cases hc5 : c = '+'
    · rw [if_pos hc5] at h
      exact unwrap_symbol_le h
    rw [if_neg hc5] at h
    by_cases hc6 : c = ','
    · rw [if_pos hc6] at h
      exact unwrap_symbol_le h
    rw [if_neg hc6] at h
    by_cases hc7 : c = ' '
    · rw [if_pos hc7] at h
      exact unwrap_symbol_le h
    rw [if_neg hc7] at h
    by_cases hc8 : c = 'B'
    · rw [if_pos hc8] at h
      refine orElse_symbol_le le_rfl h ?_
      intro s2 hs2 hfb
      obtain ⟨a, b⟩ := letterUnwrap_le hfb
      exact ⟨le_trans hs2 a, le_trans hs2 b⟩
    rw [if_neg hc8] at h
    by_cases hc9 : c = 'E'
    · rw [if_pos hc9] at h
      refine orElse_symbol_le le_rfl h ?_
      intro s2 hs2 hfb
      obtain ⟨a, b⟩ := letterUnwrap_le hfb
      exact ⟨le_trans hs2 a, le_trans hs2 b⟩
    rw [if_neg hc9] at h
    by_cases hc10 : c = 'V'
    · rw [if_pos hc10] at h
      refine orElse_symbol_le le_rfl h ?_
      intro s2 hs2 hfb
      obtain ⟨a, b⟩ := letterUnwrap_le hfb
      exact ⟨le_trans hs2 a, le_trans hs2 b⟩
    rw [if_neg hc10] at h
    by_cases hc11 : c = 'C'
    · -- 'C' : Comment then Charset then letter
      rw [if_pos hc11] at h
      refine orElse_symbol_le le_rfl h ?_
      intro s2 hs2 hfb
      refine orElse_symbol_le hs2 hfb ?_
      intro s3 hs3 hfb2
      obtain ⟨a, b⟩ := letterUnwrap_le hfb2
      exact ⟨le_trans (le_trans hs2 hs3) a, le_trans (le_trans hs2 hs3) b⟩
    rw [if_neg hc11] at h
    by_cases hc12 : c = 'H'
    · rw [if_pos hc12] at h
      refine orElse_symbol_le le_rfl h ?_
      intro s2 hs2 hfb
      obtain ⟨a, b⟩ := letterUnwrap_le hfb
      exact ⟨le_trans hs2 a, le_trans hs2 b⟩
    rw [if_neg hc12] at h
    by_cases hc13 : c = 'P'
    · -- 'P' : the six-deep chain then letter
      rw [if_pos hc13] at h
      refine orElse_symbol_le le_rfl h ?_
      intro s1 hs1 h1
      refine orElse_symbol_le hs1 h1 ?_
      intro s2 hs2 h2
      have hb2 := le_trans hs1 hs2
      refine orElse_symbol_le hb2 h2 ?_
      intro s3 hs3 h3
      have hb3 := le_trans hb2 hs3
      refine orElse_symbol_le hb3 h3 ?_
      intro s4 hs4 h4
      have hb4 := le_trans hb3 hs4
      refine orElse_symbol_le hb4 h4 ?_
      intro s5 hs5 h5
      have hb5 := le_trans hb4 hs5
      refine orElse_symbol_le hb5 h5 ?_
      intro s6 hs6 h6
      have hb6 := le_trans hb5 hs6
      obtain ⟨a, b⟩ := letterUnwrap_le h6
      exact ⟨le_trans hb6 a, le_trans hb6 b⟩
    rw [if_neg hc13] at h
    by_cases hc14 : c = 'M'
    · rw [if_pos hc14] at h
      refine orElse_symbol_le le_rfl h ?_
      intro s2 hs2 hfb
      obtain ⟨a, b⟩ := letterUnwrap_le hfb
      exact ⟨le_trans hs2 a, le_trans hs2 b⟩
    rw [if_neg hc14] at h
    by_cases hc15 : c = '\n'
    · -- '\n' : BlankLine, fallback NewLine
      rw [if_pos hc15] at h
      rcases hbl : scan_blankline ⟨c :: rest, loc⟩ with ⟨ot, s0⟩
      rw [hbl] at h
      cases ot with
      | some t0 =>
        simp only [Option.some.injEq, Prod.mk.injEq] at h
        obtain ⟨rfl, rfl⟩ := h
        obtain ⟨heq, hle⟩ := scan_blankline_some hbl
        exact ⟨le_of_eq heq.symm, hle⟩
      | none =>
        have hm := scan_blankline_none hbl
        obtain ⟨a, b⟩ := unwrap_symbol_le h
        exact ⟨le_trans hm a, le_trans hm b⟩
    rw [if_neg hc15] at h
    by_cases hc16 : '0' ≤ c ∧ c ≤ '9'
    · -- digit range
      rw [if_pos hc16] at h
      rcases hd : scan_digit ⟨c :: rest, loc⟩ with ⟨ot, s0⟩
      rw [hd] at h
      cases ot with
      | some t0 =>
        simp only [Option.some.injEq, Prod.mk.injEq] at h
        obtain ⟨rfl, rfl⟩ := h
        obtain ⟨heq, hle⟩ := scan_digit_some hd
        exact ⟨le_of_eq heq.symm, hle⟩
      | none => simp at h
    rw [if_neg hc16] at h
    by_cases hc17 : ('a' ≤ c ∧ c ≤ 'z') ∨ ('A' ≤ c ∧ c ≤ 'Z')
    · -- letter range
      rw [if_pos hc17] at h
      exact letterUnwrap_le h
    -- `Some(_)` fallback: scan_other_utf8 always panics
    rw [if_neg hc17] at h
    exfalso
    have h2 := unwrapScan_inv h
    simp [scan_symbol, armor_string] at h2

/-- Claim C9 (amended): starting from a non-negative location, every token a
`next_token` call produces *other than the `Eof` token* carries a
non-negative `absolute` byte offset, and the location counter never
decreases (so the property propagates over a whole run of the tokenizer);
the `Eof` token instead carries the sentinel `Location::eof() = -1`. -/
theorem next_token_nonEof_location_nonneg (st : LexState) (t : Token) (st' : LexState)
    (h0 : 0 ≤ st.location) (h : next_token st = some (t, st'))
    (hne : t.token_type ≠ .Eof) :
    0 ≤ t.location.absolute ∧ st.location ≤ st'.location :=
  ⟨le_trans h0 (next_token_le h hne).1, (next_token_le h hne).2⟩

/-- Witness for claim C9 (amended): lexing the single character `'a'` from
offset `0` yields a `Letter` token at offset `0 ≥ 0`. -/
theorem next_token_nonEof_location_nonneg_witness :
    0 ≤ (Token.mk .Letter "a" ⟨0⟩).location.absolute ∧
      (LexState.mk ['a'] 0).location ≤ (LexState.mk [] 1).location :=
  next_token_nonEof_location_nonneg ⟨['a'], 0⟩ ⟨.Letter, "a", ⟨0⟩⟩ ⟨[], 1⟩
    (by norm_num) rfl (by decide)

theorem fill_spec (n : Nat) :
    ∀ st : PState, (fill n st).buf = st.buf ∧ (fill n st).offset = st.offset ∧
      (fill n st).markers = st.markers := by
  induction n with
  | zero => intro st; exact ⟨rfl, rfl, rfl⟩
  | succ n ih =>
    intro st
    rcases hin : st.input with _ | ⟨u, us⟩
    · rw [fill, hin]
      exact ⟨rfl, rfl, rfl⟩
    · rw [fill, hin]
      obtain ⟨hb, ho, hm⟩ := ih { st with input := us, lookahead := st.lookahead ++ [u] }
      refine ⟨?_, ho, hm⟩
      rw [hb]
      show (st.lookahead ++ [u]) ++ us = st.lookahead ++ st.input
      rw [hin, List.append_assoc]
      rfl

theorem peek_token_at {st : PState} {t : Token} {r : List Token}
    (hinv : st.offset ≤ st.lookahead.length)
    (hrem : st.buf.drop st.offset = t :: r) :
    ∃ st', peek_token st = some (some t, st') ∧ st'.buf = st.buf ∧
      st'.offset = st.offset ∧ st'.markers = st.markers ∧
      st'.offset < st'.lookahead.length := by
  rcases hla : st.lookahead with _ | ⟨a, as⟩
  · -- empty buffer: pull one token from the input
    have hoff : st.offset = 0 := by rw [hla] at hinv; simpa using hinv
    have hbuf : st.buf = st.input := by simp [PState.buf, hla]
    have hin : st.input = t :: r := by
      rw [← hbuf]
      rw [hoff] at hrem
      simpa using hrem
    refine ⟨{ st with input := r, lookahead := st.lookahead ++ [t], offset := 0 }, ?_, ?_, ?_, rfl, ?_⟩
    · rw [peek_token, if_pos (by rw [hla]; rfl), hin]
    · simp [PState.buf, hla, hbuf, hin]
    · exact hoff.symm
    · simp [hla]
  · -- nonempty buffer: sync, then index
    have hne : ¬st.lookahead.isEmpty := by rw [hla]; simp
    rcases Nat.lt_or_ge st.offset st.lookahead.length with hlt | hge
    · -- offset strictly inside the buffer: sync is the identity
      have hsync : sync st = st := by
        rw [sync, if_neg]
        omega
      have hget : st.lookahead[st.offset]? = some t := by
        have h1 : st.buf[st.offset]? = some t := by
          rw [← List.head?_drop, hrem]
          rfl
        rw [← h1]
        exact (List.getElem?_append_left hlt).symm
      refine ⟨st, ?_, rfl, rfl, rfl, hlt⟩
      rw [peek_token, if_neg hne]
      simp only [hsync, hget]
    · -- offset one past the buffer: fill one token from the input
      have heq : st.offset = st.lookahead.length := le_antisymm hinv hge
      have hlen1 : 1 ≤ st.lookahead.length := by rw [hla]; simp
      have hcond : st.lookahead.length - 1 < st.offset := by omega
      have hamt : st.offset - (st.lookahead.length - 1) = 1 := by omega
      have hdrop : st.buf.drop st.offset = st.input := by
        rw [heq, PState.buf, List.drop_left]
      have hin : st.input = t :: r := by rw [← hdrop, hrem]
      have hsync : sync st = { st with input := r, lookahead := st.lookahead ++ [t] } := by
        rw [sync, if_pos hcond, hamt]
        simp only [fill, hin]
      refine ⟨{ st with input := r, lookahead := st.lookahead ++ [t] }, ?_, ?_, rfl, rfl, ?_⟩
      · rw [peek_token, if_neg hne]
        simp only [hsync]
        have hget : (st.lookahead ++ [t])[st.offset]? = some t := by
          rw [heq]
          exact List.getElem?_concat_length st.lookahead t
        simp only [hget]
      · show (st.lookahead ++ [t]) ++ r = st.buf
        rw [PState.buf, hin, List.append_assoc]
        rfl
      · simp [heq]

theorem parse_number_loop_at :
    ∀ (ds : List Token) (st : PState) (acc : List Char) (fuel : Nat)
      (t : Token) (r : List Token),
      st.offset ≤ st.lookahead.length →
      st.buf.drop st.offset = ds ++ t :: r →
      (∀ d ∈ ds, d.token_type = .Digit) →
      t.token_type ≠ .Digit →
      ds.length + 1 ≤ fuel →
      ∃ st', parse_number_loop fuel acc st = some (acc ++ digitsText ds, st') ∧
        st'.buf = st.buf ∧ st'.offset = st.offset + ds.length ∧
        st'.markers = st.markers ∧ st'.offset < st'.lookahead.length := by
  intro ds
  induction ds with
  | nil =>
    intro st acc fuel t r hinv hrem hds ht hfuel
    match fuel, hfuel with
    | fuel + 1, _ =>
      obtain ⟨st', hpeek, hbuf, hoff, hmk, hlt⟩ :=
        peek_token_at hinv (by simpa using hrem)
      refine ⟨st', ?_, hbuf, by simpa using hoff, hmk, hlt⟩
      simp only [parse_number_loop, hpeek]
      rw [if_neg ht]
      simp [digitsText]
  | cons d ds ih =>
    intro st acc fuel t r hinv hrem hds ht hfuel
    match fuel, hfuel with
    | fuel + 1, hf =>
      have hrem1 : st.buf.drop st.offset = d :: (ds ++ t :: r) := by simpa using hrem
      obtain ⟨st1, hpeek, hbuf, hoff, hmk, hlt⟩ := peek_token_at hinv hrem1
      have hd : d.token_type = .Digit := hds d (by simp)
      have hrem2 : (read_token st1).buf.drop (read_token st1).offset = ds ++ t :: r := by
        show st1.buf.drop (st1.offset + 1) = ds ++ t :: r
        rw [← List.tail_drop, hbuf, hoff, hrem1]
        rfl
      have hinv2 : (read_token st1).offset ≤ (read_token st1).lookahead.length := hlt
      obtain ⟨st', hloop, hbuf', hoff', hmk', hlt'⟩ :=
        ih (read_token st1) (acc ++ d.text.data) fuel t r hinv2 hrem2
          (fun x hx => hds x (by simp [hx])) ht
          (by simp only [List.length_cons] at hf; omega)
      refine ⟨st', ?_, ?_, ?_, ?_, hlt'⟩
      · simp only [parse_number_loop, hpeek, hd, if_pos]
        rw [hloop]
        simp [digitsText]
      · rw [hbuf']
        exact hbuf
      · rw [hoff']
        show st1.offset + 1 + ds.length = st.offset + (d :: ds).length
        rw [hoff]
        simp
        omega
      · rw [hmk']
        exact hmk

theorem parse_number_at {st : PState} {ds : List Token} {t : Token} {r : List Token} {v : Nat}
    (hinv : st.offset ≤ st.lookahead.length)
    (hrem : st.buf.drop st.offset = ds ++ t :: r)
    (hds : ∀ d ∈ ds, d.token_type = .Digit)
    (ht : t.token_type ≠ .Digit)
    (hv : natFromDigits (digitsText ds) = some v) :
    ∃ st', parse_number st = some (.ok v, st') ∧ st'.buf = st.buf ∧
      st'.offset = st.offset + ds.length ∧ st'.markers = st.offset :: st.markers ∧
      st'.offset < st'.lookahead.length := by
  have hfuel : ds.length + 1 ≤ (mark st).input.length + (mark st).lookahead.length + 1 := by
    have hlen := congrArg List.length hrem
    simp only [List.length_drop, List.length_append, List.length_cons, PState.buf] at hlen
    show ds.length + 1 ≤ st.input.length + st.lookahead.length + 1
    omega
  obtain ⟨st1, hloop, hbuf, hoff, hmk, hlt⟩ :=
    parse_number_loop_at ds (mark st) []
      ((mark st).input.length + (mark st).lookahead.length + 1) t r hinv hrem hds ht hfuel
  have hne : digitsText ds ≠ [] := by
    intro hnil
    rw [hnil] at hv
    simp [natFromDigits] at hv
  refine ⟨st1, ?_, hbuf, hoff, hmk, hlt⟩
  simp only [parse_number]
  rw [hloop]
  simp only [List.nil_append]
  rw [if_pos hne, hv]

theorem parse_part_x_div_y_at {st : PState} {dx : List Token} {fs : Token}
    {dy : List Token} {t : Token} {r : List Token} {x y : Nat}
    (hinv : st.offset ≤ st.lookahead.length)
    (hrem : st.buf.drop st.offset = dx ++ fs :: (dy ++ t :: r))
    (hdx : ∀ d ∈ dx, d.token_type = .Digit)
    (hfs : fs.token_type = .ForwardSlash)
    (hdy : ∀ d ∈ dy, d.token_type = .Digit)
    (ht : t.token_type ≠ .Digit)
    (hx : natFromDigits (digitsText dx) = some x)
    (hy : natFromDigits (digitsText dy) = some y) :
    ∃ st', parse_part_x_div_y st = some (.ok (x, y), st') ∧ st'.buf = st.buf ∧
      st'.offset = st.offset + dx.length + 1 + dy.length ∧
      st'.markers = (st.offset + dx.length + 1) :: st.offset :: st.offset :: st.markers ∧
      st'.offset < st'.lookahead.length := by
  obtain ⟨st1, hnum1, hbuf1, hoff1, hmk1, hlt1⟩ :=
    @parse_number_at (mark st) _ _ _ _ hinv hrem hdx
      (by rw [hfs]; intro hcontra; cases hcontra) hx
  have hrem1 : st1.buf.drop st1.offset = fs :: (dy ++ t :: r) := by
    rw [hbuf1, hoff1]
    show st.buf.drop (st.offset + dx.length) = _
    rw [← List.drop_drop, hrem, List.drop_left]
  obtain ⟨st2, hpeek, hbuf2, hoff2, hmk2, hlt2⟩ := peek_token_at (le_of_lt hlt1) hrem1
  have hrem2 : (read_token st2).buf.drop (read_token st2).offset = dy ++ t :: r := by
    show st2.buf.drop (st2.offset + 1) = dy ++ t :: r
    rw [← List.tail_drop, hbuf2, hoff2, hrem1]
    rfl
  obtain ⟨st3, hnum2, hbuf3, hoff3, hmk3, hlt3⟩ :=
    @parse_number_at (read_token st2) _ _ _ _ hlt2 hrem2 hdy ht hy
  refine ⟨st3, ?_, ?_, ?_, ?_, hlt3⟩
  · simp only [parse_part_x_div_y, hnum1, hpeek]
    rw [if_pos hfs]
    simp only [hnum2]
  · rw [hbuf3]
    show st2.buf = st.buf
    rw [hbuf2, hbuf1]
    rfl
  · rw [hoff3]
    show st2.offset + 1 + dy.length = st.offset + dx.length + 1 + dy.length
    rw [hoff2, hoff1]
    show (mark st).offset + dx.length + 1 + dy.length = st.offset + dx.length + 1 + dy.length
    rfl
  · rw [hmk3]
    show (st2.offset + 1) :: st2.markers = _
    rw [hoff2, hoff1, hmk2, hmk1]
    rfl

theorem backtrack_buf (st : PState) : (backtrack st).buf = st.buf := by
  rcases h : st.markers with _ | ⟨m, ms⟩ <;> simp [backtrack, h, PState.buf]

/-- Failure path of `parse_part_x_div_y`: when the token after the first
number is neither a `ForwardSlash` nor a `Digit`, the production fails
with `CorruptHeader`, and the `backtrack_with_error` pops `parse_number`'s
stale marker, landing back exactly on the entry offset. -/
theorem parse_part_x_div_y_noslash {st : PState} {dx : List Token} {f : Token}
    {r : List Token} {x : Nat}
    (hinv : st.offset ≤ st.lookahead.length)
    (hrem : st.buf.drop st.offset = dx ++ f :: r)
    (hdx : ∀ d ∈ dx, d.token_type = .Digit)
    (hf1 : f.token_type ≠ .ForwardSlash)
    (hf2 : f.token_type ≠ .Digit)
    (hx : natFromDigits (digitsText dx) = some x) :
    ∃ st', parse_part_x_div_y st = some (.error .CorruptHeader, st') ∧
      st'.buf = st.buf ∧ st'.offset = st.offset ∧
      st'.markers = st.offset :: st.markers ∧
      st'.offset ≤ st'.lookahead.length := by
  obtain ⟨st1, hnum1, hbuf1, hoff1, hmk1, hlt1⟩ :=
    @parse_number_at (mark st) _ _ _ _ hinv hrem hdx hf2 hx
  have hrem1 : st1.buf.drop st1.offset = f :: r := by
    rw [hbuf1, hoff1]
    show st.buf.drop (st.offset + dx.length) = _
    rw [← List.drop_drop, hrem, List.drop_left]
  obtain ⟨st2, hpeek, hbuf2, hoff2, hmk2, hlt2⟩ := peek_token_at (le_of_lt hlt1) hrem1
  have hm2 : st2.markers = st.offset :: (st.offset :: st.markers) := by
    rw [hmk2, hmk1]
    rfl
  have hbt : backtrack st2 = { st2 with offset := st.offset, markers := st.offset :: st.markers } := by
    simp only [backtrack, hm2]
  refine ⟨backtrack st2, ?_, ?_, ?_, ?_, ?_⟩
  · simp only [parse_part_x_div_y, hnum1, hpeek]
    rw [if_neg hf1]
  · rw [backtrack_buf, hbuf2, hbuf1]
    rfl
  · rw [hbt]
  · rw [hbt]
  · rw [hbt]
    show st.offset ≤ st2.lookahead.length
    have : st.offset ≤ st1.offset := by
      rw [hoff1]
      show st.offset ≤ st.offset + dx.length
      omega
    omega

theorem parse_part_x_at {st : PState} {dx : List Token} {fd : Token}
    {r : List Token} {x : Nat}
    (hinv : st.offset ≤ st.lookahead.length)
    (hrem : st.buf.drop st.offset = dx ++ fd :: r)
    (hdx : ∀ d ∈ dx, d.token_type = .Digit)
    (hfd : fd.token_type = .FiveDashes)
    (hx : natFromDigits (digitsText dx) = some x) :
    ∃ st', parse_part_x st = some (.ok x, st') := by
  obtain ⟨st1, hnum1, hbuf1, hoff1, hmk1, hlt1⟩ :=
    @parse_number_at (mark st) _ _ _ _ hinv hrem hdx
      (by rw [hfd]; intro hcontra; cases hcontra) hx
  have hrem1 : st1.buf.drop st1.offset = fd :: r := by
    rw [hbuf1, hoff1]
    show st.buf.drop (st.offset + dx.length) = _
    rw [← List.drop_drop, hrem, List.drop_left]
  obtain ⟨st2, hpeek, hbuf2, hoff2, hmk2, hlt2⟩ := peek_token_at (le_of_lt hlt1) hrem1
  refine ⟨st2, ?_⟩
  simp only [parse_part_x, hnum1, hpeek]
  rw [if_pos hfd]

/-- Success of the longer `MessagePartXofY` reduction of
`parse_pgp_message_part`: `PGPMessagePart`, a number, a `ForwardSlash`,
a second number. -/
theorem parse_pgp_message_part_xofy {st : PState} {pmp fs t : Token}
    {dx dy r : List Token} {x y : Nat}
    (hinv : st.offset ≤ st.lookahead.length)
    (hrem : st.buf.drop st.offset = pmp :: (dx ++ fs :: (dy ++ t :: r)))
    (hpmp : pmp.token_type = .PGPMessagePart)
    (hdx : ∀ d ∈ dx, d.token_type = .Digit)
    (hfs : fs.token_type = .ForwardSlash)
    (hdy : ∀ d ∈ dy, d.token_type = .Digit)
    (ht : t.token_type ≠ .Digit)
    (hx : natFromDigits (digitsText dx) = some x)
    (hy : natFromDigits (digitsText dy) = some y) :
    ∃ st', parse_pgp_message_part st = some (.ok (.PGPMessagePartXofY x y), st') := by
  obtain ⟨st1, hpeek, hbuf1, hoff1, hmk1, hlt1⟩ := @peek_token_at (mark st) _ _ hinv hrem
  have hrem2 : (read_token st1).buf.drop (read_token st1).offset =
      dx ++ fs :: (dy ++ t :: r) := by
    show st1.buf.drop (st1.offset + 1) = _
    rw [← List.tail_drop, hbuf1, hoff1]
    show (st.buf.drop st.offset).tail = _
    rw [hrem]
    rfl
  obtain ⟨st3, hxy, _, _, _, _⟩ :=
    @parse_part_x_div_y_at (read_token st1) _ _ _ _ _ _ _ hlt1 hrem2 hdx hfs hdy ht hx hy
  refine ⟨st3, ?_⟩
  simp only [parse_pgp_message_part, hpeek]
  rw [if_pos hpmp]
  simp only [hxy]

/-- Success of the shorter `MessagePartX` reduction: `PGPMessagePart`, a
number, then directly `FiveDashes` — reached only after
`parse_part_x_div_y` has failed and been backtracked. -/
theorem parse_pgp_message_part_partx {st : PState} {pmp fd : Token}
    {dx r : List Token} {x : Nat}
    (hinv : st.offset ≤ st.lookahead.length)
    (hrem : st.buf.drop st.offset = pmp :: (dx ++ fd :: r))
    (hpmp : pmp.token_type = .PGPMessagePart)
    (hdx : ∀ d ∈ dx, d.token_type = .Digit)
    (hfd : fd.token_type = .FiveDashes)
    (hx : natFromDigits (digitsText dx) = some x) :
    ∃ st', parse_pgp_message_part st = some (.ok (.PGPMessagePartX x), st') := by
  obtain ⟨st1, hpeek, hbuf1, hoff1, hmk1, hlt1⟩ := @peek_token_at (mark st) _ _ hinv hrem
  have hrem2 : (read_token st1).buf.drop (read_token st1).offset = dx ++ fd :: r := by
    show st1.buf.drop (st1.offset + 1) = _
    rw [← List.tail_drop, hbuf1, hoff1]
    show (st.buf.drop st.offset).tail = _
    rw [hrem]
    rfl
  obtain ⟨st3, hfail, hbuf3, hoff3, hmk3, hinv3⟩ :=
    @parse_part_x_div_y_noslash (read_token st1) _ _ _ _ hlt1 hrem2 hdx
      (by rw [hfd]; intro hcontra; cases hcontra)
      (by rw [hfd]; intro hcontra; cases hcontra) hx
  have hbt : backtrack st3 =
      { st3 with offset := (read_token st1).offset, markers := (read_token st1).markers } := by
    simp only [backtrack, hmk3]
  have hrem4 : (backtrack st3).buf.drop (backtrack st3).offset = dx ++ fd :: r := by
    rw [hbt]
    show st3.buf.drop (read_token st1).offset = _
    rw [hbuf3]
    exact hrem2
  have hinv4 : (backtrack st3).offset ≤ (backtrack st3).lookahead.length := by
    rw [hbt]
    show (read_token st1).offset ≤ st3.lookahead.length
    omega
  obtain ⟨st5, hpx⟩ := @parse_part_x_at (backtrack st3) _ _ _ _ hinv4 hrem4 hdx hfd hx
  refine ⟨st5, ?_⟩
  simp only [parse_pgp_message_part, hpeek]
  rw [if_pos hpmp]
  simp only [hfail, hpx]

/-- Claim C4: given the `PGPMessagePart` token, when the following number is
followed by a `ForwardSlash` and a second number, `parse_pgp_message_part`
returns the longer reduction `MessagePartXofY(x, y)`; and it returns
`MessagePartX(x)` when the number is instead followed directly by
`FiveDashes`. -/
theorem pgp_message_part_tie_break :
    (∀ (st : PState) (pmp fs t : Token) (dx dy r : List Token) (x y : Nat),
      st.offset ≤ st.lookahead.length →
      st.buf.drop st.offset = pmp :: (dx ++ fs :: (dy ++ t :: r)) →
      pmp.token_type = .PGPMessagePart →
      (∀ d ∈ dx, d.token_type = .Digit) →
      fs.token_type = .ForwardSlash →
      (∀ d ∈ dy, d.token_type = .Digit) →
      t.token_type ≠ .Digit →
      natFromDigits (digitsText dx) = some x →
      natFromDigits (digitsText dy) = some y →
      ∃ st', parse_pgp_message_part st = some (.ok (.PGPMessagePartXofY x y), st')) ∧
    (∀ (st : PState) (pmp fd : Token) (dx r : List Token) (x : Nat),
      st.offset ≤ st.lookahead.length →
      st.buf.drop st.offset = pmp :: (dx ++ fd :: r) →
      pmp.token_type = .PGPMessagePart →
      (∀ d ∈ dx, d.token_type = .Digit) →
      fd.token_type = .FiveDashes →
      natFromDigits (digitsText dx) = some x →
      ∃ st', parse_pgp_message_part st = some (.ok (.PGPMessagePartX x), st')) :=
  ⟨fun _ _ _ _ _ _ _ _ _ hinv hrem hpmp hdx hfs hdy ht hx hy =>
      parse_pgp_message_part_xofy hinv hrem hpmp hdx hfs hdy ht hx hy,
    fun _ _ _ _ _ _ hinv hrem hpmp hdx hfd hx =>
      parse_pgp_message_part_partx hinv hrem hpmp hdx hfd hx⟩

/-- Witness for claim C4: the token streams of `PART 1/13` and `PART 7`
(as the parser's grammar expects them). -/
theorem pgp_message_part_tie_break_witness :
    (∃ st', parse_pgp_message_part (mkParserState
        [⟨.PGPMessagePart, "PGP MESSAGE, PART ", ⟨0⟩⟩, ⟨.Digit, "1", ⟨18⟩⟩,
         ⟨.ForwardSlash, "/", ⟨19⟩⟩, ⟨.Digit, "1", ⟨20⟩⟩, ⟨.Digit, "3", ⟨21⟩⟩,
         ⟨.FiveDashes, "-----", ⟨22⟩⟩]) =
      some (.ok (.PGPMessagePartXofY 1 13), st')) ∧
    (∃ st', parse_pgp_message_part (mkParserState
        [⟨.PGPMessagePart, "PGP MESSAGE, PART ", ⟨0⟩⟩, ⟨.Digit, "7", ⟨18⟩⟩,
         ⟨.FiveDashes, "-----", ⟨19⟩⟩]) =
      some (.ok (.PGPMessagePartX 7), st')) := by
  constructor
  · exact pgp_message_part_tie_break.1 _
      ⟨.PGPMessagePart, "PGP MESSAGE, PART ", ⟨0⟩⟩ ⟨.ForwardSlash, "/", ⟨19⟩⟩
      ⟨.FiveDashes, "-----", ⟨22⟩⟩ [⟨.Digit, "1", ⟨18⟩⟩]
      [⟨.Digit, "1", ⟨20⟩⟩, ⟨.Digit, "3", ⟨21⟩⟩] [] 1 13
      (by decide) (by decide) (by decide) (by decide) (by decide) (by decide)
      (by decide) (by decide) (by decide)
  · exact pgp_message_part_tie_break.2 _
      ⟨.PGPMessagePart, "PGP MESSAGE, PART ", ⟨0⟩⟩ ⟨.FiveDashes, "-----", ⟨19⟩⟩
      [⟨.Digit, "7", ⟨18⟩⟩] [] 7
      (by decide) (by decide) (by decide) (by decide) (by decide) (by decide)

/-- Claim C3, counterexample: the part numbering `0/5` violates `1 ≤ x ≤ y`,
yet the parser succeeds and produces the envelope
`MessagePartXofY(0, 5)` — it does not fail, with `InvalidPartIndex` or
otherwise. -/
theorem part_zero_of_five_produces_message :
    (parse_pgp_message_part (mkParserState part05Tokens)).map Prod.fst =
      some (.ok (.PGPMessagePartXofY 0 5)) := by decide

/-- Claim C3 (amended): the parser performs no part-index validation at all:
`ParseError` has only the four variants `CorruptHeader`,
`InvalidHeaderLine`, `EndOfFile` and `ParseError` (no `InvalidPartIndex`
exists), and `PGP MESSAGE, PART 0/5` parses successfully to
`MessagePartXofY(0, 5)`. -/
theorem part_index_never_validated :
    (∀ e : ParseError, e = .CorruptHeader ∨ e = .InvalidHeaderLine ∨
      e = .EndOfFile ∨ e = .ParseError) ∧
    (∃ st', parse_pgp_message_part (mkParserState part05Tokens) =
      some (.ok (.PGPMessagePartXofY 0 5), st')) := by
  constructor
  · intro e
    cases e
    · exact Or.inl rfl
    · exact Or.inr (Or.inl rfl)
    · exact Or.inr (Or.inr (Or.inl rfl))
    · exact Or.inr (Or.inr (Or.inr rfl))
  · have h : (parse_pgp_message_part (mkParserState part05Tokens)).map Prod.fst =
        some (.ok (.PGPMessagePartXofY 0 5)) := by decide
    rcases hp : parse_pgp_message_part (mkParserState part05Tokens) with _ | ⟨res, stf⟩
    · rw [hp] at h
      simp at h
    · rw [hp] at h
      simp at h
      exact ⟨stf, by rw [h]⟩

/-- Claim C6, counterexample: the full pipeline on the header block
`"Foo: bar\n\n"` — `Foo` is printable ASCII, contains no `':'` and is not
a reserved key, yet `parse_header_block` rejects it with `CorruptHeader`
instead of recording an `Other("Foo")` header. -/
theorem other_header_line_rejected :
    (lexTokens "Foo: bar\n\n").bind
        (fun ts => (parse_header_block (mkParserState ts)).map Prod.fst) =
      some (.error .CorruptHeader) := by decide

/-- Claim C6 (amended): `parse_header_block` accepts only the five reserved
keys: whenever the next token is not one of `Version`, `Comment`,
`MessageID`, `Hash`, `Charset` (or the block-ending `BlankLine`), it fails
with `CorruptHeader`; the `OtherHeader` variant is never produced. -/
theorem header_block_rejects_nonreserved {st : PState} {t : Token} {r : List Token}
    (hinv : st.offset ≤ st.lookahead.length)
    (hrem : st.buf.drop st.offset = t :: r)
    (h1 : t.token_type ≠ .Version) (h2 : t.token_type ≠ .Comment)
    (h3 : t.token_type ≠ .MessageID) (h4 : t.token_type ≠ .Hash)
    (h5 : t.token_type ≠ .Charset) (h6 : t.token_type ≠ .BlankLine) :
    ∃ st', parse_header_block st = some (.error .CorruptHeader, st') := by
  obtain ⟨st1, hpeek, _, _, _, _⟩ := peek_token_at hinv hrem
  refine ⟨st1, ?_⟩
  simp only [parse_header_block, parse_header_block_loop, hpeek]

/-- Witness for claim C6 (amended): a header block starting with the
`Letter` token `"F"` is rejected with `CorruptHeader`. -/
theorem header_block_rejects_nonreserved_witness :
    ∃ st', parse_header_block (mkParserState [⟨.Letter, "F", ⟨0⟩⟩]) =
      some (.error .CorruptHeader, st') :=
  @header_block_rejects_nonreserved (mkParserState [⟨.Letter, "F", ⟨0⟩⟩])
    ⟨.Letter, "F", ⟨0⟩⟩ [] (by decide) (by decide)
    (by decide) (by decide) (by decide) (by decide) (by decide) (by decide)

end Armor
